import Mathlib

/-!
# Model of the calculator history and state-management engine

A shallow embedding of `app/calculation.py`, `app/calculator_memento.py`,
`app/input_validators.py` and the state-management part of
`app/calculator.py`.

Modelling conventions:
* `Decimal` values are modelled as exact rationals `ℚ` (the spec treats
  decimal arithmetic as a host-language primitive and puts its precision
  behaviour out of scope).
* The two float-based computations in `Calculation.calculate`
  (`Decimal(pow(float(x), float(y)))` for `Power` and `Root`) are modelled by
  an abstract parameter `PowModel`; no claim depends on the values they
  produce, only on the guards in front of them.
* Timestamps (`datetime.datetime.now()`) are abstract naturals supplied as a
  `now` argument where the source calls the clock.
* Raising an exception is modelled by `Except`; `Calculator.perform_operation`
  returns the post-call state together with the outcome, so that a raise that
  happens after a mutation is distinguishable from one that happens before.
* Python list mutation is modelled twice: a value-level model (`Calculator`)
  in which every list is a Lean list, and, for the memento-aliasing claim, a
  reference-level model (`HeapCalculator`) in which list objects live in a
  store and the state holds references, making the `.copy()` calls of the
  source visible.
-/

/-- Errors of `app/exceptions.py` raised by the modelled code:
`OperationError` and `ValidationError`, each carrying its message. -/
inductive CalcError where
  | operationError (msg : String)
  | validationError (msg : String)
deriving DecidableEq

/-- Message raised by `Calculation._raise_div_zero`. -/
def divZeroMsg : String := "Division by zero is not allowed"

/-- Message raised by `Calculation._raise_neg_power`. -/
def negPowerMsg : String := "Negative exponents are not supported"

/-- Message raised by `Calculation._raise_invalid_root` when `y = 0`. -/
def zeroRootMsg : String := "Zero root is undefined"

/-- Message raised by `Calculation._raise_invalid_root` when `x < 0`. -/
def negRootMsg : String := "Cannot calculate root of negative number"

/-- Fallback message of `Calculation._raise_invalid_root`. -/
def invalidRootMsg : String := "Invalid root operation"

/-- Message of `Calculation._raise_percentage_div_zero`.  The source defines
this static method but never calls it: the `Percentage` entry of the
`operations` mapping calls `_raise_div_zero()` instead. -/
def percentageDivZeroMsg : String := "Division by zero is not allowed for percentage"

/-- Truncation of a rational toward zero: the value of Python
`int(x // y)` for decimals, since `Decimal.__floordiv__` is the
divide-integer operation of the decimal specification, which truncates
toward zero.  `Int.tdiv` is truncating division. -/
def ratTrunc (q : ℚ) : ℤ :=
  q.num.tdiv q.den

/-- Abstract model of the host computation `Decimal(pow(float(x), float(y)))`
used by the `Power` and `Root` branches of `Calculation.calculate`: the host
either produces a value or raises an arithmetic error with some message
(which the source catches and wraps). -/
structure PowModel where
  pow : ℚ → ℚ → Except String ℚ
  root : ℚ → ℚ → Except String ℚ

/-- The `except (InvalidOperation, ValueError, ArithmeticError)` handler of
`Calculation.calculate`: an arithmetic failure is re-raised as
`OperationError` with the original message appended. -/
def wrapArith (r : Except String ℚ) : Except CalcError ℚ :=
  match r with
  | .ok v => .ok v
  | .error m => .error (.operationError ("Calculation failed: " ++ m))

/-- `Calculation.calculate` of `app/calculation.py`: dispatch on the
operation name, mirroring the `operations` mapping entry by entry, including
each entry's guard.  The raise helpers are not caught by the
`except` clause (they raise `OperationError`, which is not in the caught
tuple), so their errors propagate unwrapped. -/
def calculate (fp : PowModel) (operation : String) (x y : ℚ) : Except CalcError ℚ :=
  if operation = "Addition" then .ok (x + y)
  else if operation = "Subtraction" then .ok (x - y)
  else if operation = "Multiplication" then .ok (x * y)
  else if operation = "Division" then
    if y ≠ 0 then .ok (x / y) else .error (.operationError divZeroMsg)
  else if operation = "Power" then
    if 0 ≤ y then wrapArith (fp.pow x y)
    else .error (.operationError negPowerMsg)
  else if operation = "Root" then
    if 0 ≤ x ∧ y ≠ 0 then wrapArith (fp.root x y)
    else if y = 0 then .error (.operationError zeroRootMsg)
    else if x < 0 then .error (.operationError negRootMsg)
    else .error (.operationError invalidRootMsg)
  else if operation = "Modulus" then
    if y ≠ 0 then .ok (x - y * (ratTrunc (x / y) : ℚ))
    else .error (.operationError divZeroMsg)
  else if operation = "IntegerDivision" then
    if y ≠ 0 then .ok ((ratTrunc (x / y) : ℚ))
    else .error (.operationError divZeroMsg)
  else if operation = "Percentage" then
    if y ≠ 0 then .ok (x / y * 100) else .error (.operationError divZeroMsg)
  else if operation = "AbsoluteDifference" then .ok |x - y|
  else .error (.operationError ("Unknown operation: " ++ operation))

/-- The `Calculation` value object of `app/calculation.py`: operation name,
the two operands, the result frozen at construction, and a timestamp. -/
structure Calculation where
  operation : String
  operand1 : ℚ
  operand2 : ℚ
  result : ℚ
  timestamp : ℕ
deriving DecidableEq

/-- Construction of a `Calculation`: `__post_init__` computes and freezes
`result = self.calculate()`; construction fails when `calculate` raises. -/
def mkCalculation (fp : PowModel) (operation : String) (x y : ℚ) (now : ℕ) :
    Except CalcError Calculation :=
  match calculate fp operation x y with
  | .ok r => .ok ⟨operation, x, y, r, now⟩
  | .error e => .error e

/-- The dictionary produced by `Calculation.to_dict`.  The source encodes
operands, result and timestamp as strings; `Decimal(str(d)) == d` and
ISO-8601 round-tripping are exact, so the dictionary is modelled at value
level. -/
structure CalcDict where
  operation : String
  operand1 : ℚ
  operand2 : ℚ
  result : ℚ
  timestamp : ℕ
deriving DecidableEq

/-- `Calculation.to_dict`. -/
def Calculation.to_dict (c : Calculation) : CalcDict :=
  ⟨c.operation, c.operand1, c.operand2, c.result, c.timestamp⟩

/-- `Calculation.from_dict`: re-runs the constructor on the stored operands
(recomputing the result rather than trusting the stored one), then overwrites
the timestamp with the stored timestamp.  A mismatch between the stored and
the recomputed result is only logged, never an error.  A constructor failure
raises `OperationError`, which is not in the `except (KeyError,
InvalidOperation, ValueError)` tuple and therefore propagates unwrapped. -/
def Calculation.from_dict (fp : PowModel) (now : ℕ) (d : CalcDict) :
    Except CalcError Calculation :=
  match mkCalculation fp d.operation d.operand1 d.operand2 now with
  | .ok c => .ok { c with timestamp := d.timestamp }
  | .error e => .error e

/-- The part of `CalculatorConfig` consumed by the modelled core:
`max_history_size` and `max_input_value`. -/
structure CalculatorConfig where
  max_history_size : ℕ
  max_input_value : ℚ

/-- A raw input to `perform_operation`: either text that does not parse as a
decimal, or a value that parses to the given decimal. -/
inductive RawInput where
  | invalid (s : String)
  | num (q : ℚ)

/-- `InputValidator.validate_number` of `app/input_validators.py`: parse
failure raises `ValidationError`; a parsed value whose absolute value exceeds
`config.max_input_value` raises `ValidationError`; otherwise the (normalized)
value is returned.  `normalize()` does not change the value. -/
def validate_number (cfg : CalculatorConfig) (v : RawInput) : Except CalcError ℚ :=
  match v with
  | .invalid s => .error (.validationError ("Invalid number format: " ++ s))
  | .num q =>
    if |q| > cfg.max_input_value then
      .error (.validationError "Value exceeds maximum allowed")
    else .ok q

/-- `CalculatorMemento` of `app/calculator_memento.py`: a snapshot of the
history plus a creation timestamp. -/
structure CalculatorMemento where
  history : List Calculation
  timestamp : ℕ
deriving DecidableEq

/-- The state owned by the `Calculator` class that the claims are about:
the live history and the undo/redo stacks (most-recent-last, matching Python
`append`/`pop` at the end of a list). -/
structure Calculator where
  history : List Calculation
  undo_stack : List CalculatorMemento
  redo_stack : List CalculatorMemento
deriving DecidableEq

/-- The state of a freshly initialized calculator with no persisted history:
`__init__` sets `history`, `undo_stack` and `redo_stack` to empty lists. -/
def freshCalculator : Calculator := ⟨[], [], []⟩

/-- An observer, reduced to its `update` behaviour: given the completed
calculation it either returns or raises. -/
def Observer : Type := Calculation → Except CalcError Unit

/-- `Calculator.notify_observers`: call each observer in registration order;
the first raise propagates. -/
def notify_observers (observers : List Observer) (c : Calculation) :
    Except CalcError Unit :=
  match observers with
  | [] => .ok ()
  | o :: rest =>
    match o c with
    | .error e => .error e
    | .ok _ => notify_observers rest c

/-- An operation strategy as used by `perform_operation`: its display name
(`str(self.operation_strategy)`) and its `execute` method. -/
structure OperationStrategy where
  name : String
  execute : ℚ → ℚ → Except CalcError ℚ

/-- The `except` clauses at the end of `Calculator.perform_operation`: a
`ValidationError` is re-raised as is, any other exception is re-raised as
`OperationError` with its message appended to `"Operation failed: "`. -/
def wrapPerformError (e : CalcError) : CalcError :=
  match e with
  | .validationError m => .validationError m
  | .operationError m => .operationError ("Operation failed: " ++ m)

/-- Lines 208–219 of `Calculator.perform_operation`: push a memento of the
pre-operation history onto `undo_stack`, clear `redo_stack`, append the new
calculation to `history`, and evict the oldest entry (`pop(0)`) when the
length exceeds `max_history_size`. -/
def recordCalculation (cfg : CalculatorConfig) (now : ℕ) (s : Calculator)
    (calculation : Calculation) : Calculator :=
  { history := if (s.history ++ [calculation]).length > cfg.max_history_size
               then (s.history ++ [calculation]).tail
               else s.history ++ [calculation],
    undo_stack := s.undo_stack ++ [⟨s.history, now⟩],
    redo_stack := [] }

/-- `Calculator.perform_operation` of `app/calculator.py`, returning the
post-call state and the outcome.  The source order is kept: validate `a`,
validate `b`, run the strategy, construct the `Calculation`; only then
mutate the state (`recordCalculation`), and finally notify the observers
(whose raise, if any, happens after the mutations). -/
def perform_operation (cfg : CalculatorConfig) (fp : PowModel)
    (strategy : Option OperationStrategy) (observers : List Observer)
    (now : ℕ) (s : Calculator) (a b : RawInput) :
    Calculator × Except CalcError ℚ :=
  match strategy with
  | none => (s, .error (.operationError "No operation set"))
  | some strat =>
    match validate_number cfg a with
    | .error e => (s, .error e)
    | .ok validated_a =>
    match validate_number cfg b with
    | .error e => (s, .error e)
    | .ok validated_b =>
    match strat.execute validated_a validated_b with
    | .error e => (s, .error (wrapPerformError e))
    | .ok result =>
    match mkCalculation fp strat.name validated_a validated_b now with
    | .error e => (s, .error (wrapPerformError e))
    | .ok calculation =>
      match notify_observers observers calculation with
      | .error e => (recordCalculation cfg now s calculation,
                     .error (wrapPerformError e))
      | .ok _ => (recordCalculation cfg now s calculation, .ok result)

/-- `Calculator.clear_history`: empties the history and both stacks. -/
def clear_history (_s : Calculator) : Calculator := ⟨[], [], []⟩

/-- `Calculator.undo`: on an empty `undo_stack` return `False` and leave the
state alone; otherwise pop the most recent memento, push a snapshot of the
current history onto `redo_stack`, replace the history with a copy of the
memento contents, and return `True`. -/
def undo (now : ℕ) (s : Calculator) : Bool × Calculator :=
  match s.undo_stack.getLast? with
  | none => (false, s)
  | some memento =>
    (true, ⟨memento.history,
            s.undo_stack.dropLast,
            s.redo_stack ++ [⟨s.history, now⟩]⟩)

/-- `Calculator.redo`: symmetric to `undo`, moving a memento from
`redo_stack` while pushing the current history onto `undo_stack`. -/
def redo (now : ℕ) (s : Calculator) : Bool × Calculator :=
  match s.redo_stack.getLast? with
  | none => (false, s)
  | some memento =>
    (true, ⟨memento.history,
            s.undo_stack ++ [⟨s.history, now⟩],
            s.redo_stack.dropLast⟩)

/-- One call of one of the four state-changing public operations of the
`Calculator` class.  A `perform_operation` call is included whether it
succeeds or raises: the reached state is the first component it returns. -/
inductive CalcStep (cfg : CalculatorConfig) (fp : PowModel) :
    Calculator → Calculator → Prop where
  | perform (strategy : Option OperationStrategy) (observers : List Observer)
      (now : ℕ) (a b : RawInput) (s : Calculator) :
      CalcStep cfg fp s (perform_operation cfg fp strategy observers now s a b).1
  | undoStep (now : ℕ) (s : Calculator) : CalcStep cfg fp s (undo now s).2
  | redoStep (now : ℕ) (s : Calculator) : CalcStep cfg fp s (redo now s).2
  | clear (s : Calculator) : CalcStep cfg fp s (clear_history s)

/-- The states reachable from a fresh calculator by any sequence of
`perform_operation`, `undo`, `redo` and `clear_history` calls. -/
inductive CalcReachable (cfg : CalculatorConfig) (fp : PowModel) :
    Calculator → Prop where
  | fresh : CalcReachable cfg fp freshCalculator
  | step {s s' : Calculator} : CalcReachable cfg fp s → CalcStep cfg fp s s' →
      CalcReachable cfg fp s'

/-! ## Reference-level model of the history lists

In the source, `history` and every memento's `history` are Python list
objects; mementos are built from `self.history.copy()`, and the live list is
mutated in place by `append`, `pop(0)` and `clear`, while `undo`/`redo`
rebind `self.history` to a fresh copy of the popped memento's list.  To make
the copy-versus-alias distinction expressible, this model keeps every list
object in a store and lets the state hold references (indices) into it.
Allocation appends at the end of the store; nothing is ever deallocated. -/

/-- The list object stored under reference `r` (empty if `r` is dangling). -/
def listAt (store : List (List Calculation)) (r : ℕ) : List Calculation :=
  store.getD r []

/-- Calculator state at the reference level: the store of list objects, the
reference held by `self.history`, and the references held by the mementos on
the two stacks. -/
structure HeapCalculator where
  store : List (List Calculation)
  history_ref : ℕ
  undo_refs : List ℕ
  redo_refs : List ℕ

/-- A fresh calculator at the reference level: one allocated empty list for
`self.history`, empty stacks. -/
def freshHeapCalculator : HeapCalculator := ⟨[[]], 0, [], []⟩

/-- The mutations of a successful `perform_operation`, with the appended
`Calculation` abstracted as a parameter: allocate a copy of the live history
and push its reference (`CalculatorMemento(self.history.copy())`), clear
`redo_stack`, then mutate the live list in place: `append(calculation)`
followed by `pop(0)` when the bound is exceeded. -/
def heapPerform (max_history_size : ℕ) (c : Calculation) (s : HeapCalculator) :
    HeapCalculator :=
  let live := listAt s.store s.history_ref
  let snapRef := s.store.length
  let grown := live ++ [c]
  { store := (s.store ++ [live]).set s.history_ref
      (if grown.length > max_history_size then grown.tail else grown),
    history_ref := s.history_ref,
    undo_refs := s.undo_refs ++ [snapRef],
    redo_refs := [] }

/-- The mutations of `undo`: pop the most recent memento reference, allocate
a copy of the live history and push its reference onto `redo_stack`, then
rebind `self.history` to a freshly allocated copy of the memento's list
(`self.history = memento.history.copy()`). -/
def heapUndo (s : HeapCalculator) : HeapCalculator :=
  match s.undo_refs.getLast? with
  | none => s
  | some m =>
    let live := listAt s.store s.history_ref
    let snapRef := s.store.length
    let newHistRef := s.store.length + 1
    { store := s.store ++ [live, listAt s.store m],
      history_ref := newHistRef,
      undo_refs := s.undo_refs.dropLast,
      redo_refs := s.redo_refs ++ [snapRef] }

/-- The mutations of `redo`, symmetric to `heapUndo`. -/
def heapRedo (s : HeapCalculator) : HeapCalculator :=
  match s.redo_refs.getLast? with
  | none => s
  | some m =>
    let live := listAt s.store s.history_ref
    let snapRef := s.store.length
    let newHistRef := s.store.length + 1
    { store := s.store ++ [live, listAt s.store m],
      history_ref := newHistRef,
      undo_refs := s.undo_refs ++ [snapRef],
      redo_refs := s.redo_refs.dropLast }

/-- The mutations of `clear_history`: `self.history.clear()` empties the live
list object in place; both stacks are emptied. -/
def heapClear (s : HeapCalculator) : HeapCalculator :=
  { store := s.store.set s.history_ref [],
    history_ref := s.history_ref,
    undo_refs := [],
    redo_refs := [] }

/-- One state-changing call at the reference level. -/
inductive HeapStep : HeapCalculator → HeapCalculator → Prop where
  | perform (max_history_size : ℕ) (c : Calculation) (s : HeapCalculator) :
      HeapStep s (heapPerform max_history_size c s)
  | undoStep (s : HeapCalculator) : HeapStep s (heapUndo s)
  | redoStep (s : HeapCalculator) : HeapStep s (heapRedo s)
  | clear (s : HeapCalculator) : HeapStep s (heapClear s)

/-- Well-formedness of a reference-level state: the live-history reference
and every memento reference point into the store, and no memento reference
aliases the live history.  This holds for a fresh calculator and is
preserved by every step (`heapInv_fresh`, `heapInv_step`); it is exactly the
no-aliasing property that the `.copy()` calls of the source establish. -/
def HeapInv (s : HeapCalculator) : Prop :=
  s.history_ref < s.store.length ∧
  ∀ r ∈ s.undo_refs ++ s.redo_refs, r < s.store.length ∧ r ≠ s.history_ref

/-! ## Shared concrete instances for witnesses and counterexamples -/

/-- A trivial host model for the float-based `Power`/`Root` computations; no
claim below depends on the values it returns. -/
def fp0 : PowModel := ⟨fun _ _ => .ok 0, fun _ _ => .ok 0⟩

/-- Modelled from the spec: the `Addition` strategy of `app/operations.py`,
which `app/calculator.py` imports but which is absent from the sources.
Section 4.1 of the spec gives `Addition` the formula `x + y`, and the
strategy's display name is the operation name `"Addition"` that
`perform_operation` passes to the `Calculation` constructor. -/
def additionStrategy : OperationStrategy := ⟨"Addition", fun x y => .ok (x + y)⟩

/-- A configuration with room for five history entries. -/
def cfg5 : CalculatorConfig := ⟨5, 1000000⟩

/-- A configuration whose history holds a single entry. -/
def cfg1 : CalculatorConfig := ⟨1, 1000000⟩

/-- The calculation produced by performing `Addition` on `2` and `3`. -/
def addCalc : Calculation := ⟨"Addition", 2, 3, 5, 0⟩

/-- A state whose history is longer than `cfg1.max_history_size`; the source
can be put in such a state by `load_history`, which rebuilds `self.history`
from the persisted file without truncating it to `max_history_size`. -/
def bigState : Calculator := ⟨[addCalc, addCalc], [], []⟩

/-! ## Helper lemmas about `perform_operation` -/

/-- A `perform_operation` call that returns a result reaches exactly the
state produced by `recordCalculation` for some constructed calculation. -/
theorem perform_operation_eq_ok {cfg : CalculatorConfig} {fp : PowModel}
    {strategy : Option OperationStrategy} {observers : List Observer}
    {now : ℕ} {s : Calculator} {a b : RawInput} {s' : Calculator} {r : ℚ}
    (h : perform_operation cfg fp strategy observers now s a b = (s', .ok r)) :
    ∃ calculation, s' = recordCalculation cfg now s calculation := by
  unfold perform_operation at h
  split at h
  · simp at h
  · split at h
    · simp at h
    · split at h
      · simp at h
      · split at h
        · simp at h
        · split at h
          · simp at h
          · split at h
            · simp at h
            · rw [Prod.mk.injEq] at h
              exact ⟨_, h.1.symm⟩

/-- Every `perform_operation` call, whether it raises or not, leaves the
state alone or performs the full `recordCalculation` mutation. -/
theorem perform_operation_fst_cases (cfg : CalculatorConfig) (fp : PowModel)
    (strategy : Option OperationStrategy) (observers : List Observer)
    (now : ℕ) (s : Calculator) (a b : RawInput) :
    (perform_operation cfg fp strategy observers now s a b).1 = s ∨
    ∃ c, (perform_operation cfg fp strategy observers now s a b).1 =
      recordCalculation cfg now s c := by
  unfold perform_operation
  repeat' split
  all_goals first
    | exact Or.inl rfl
    | exact Or.inr ⟨_, rfl⟩

/-! ## C1 -/

/-- C1 (amended): after a `perform_operation` call that returns a result,
`redo_stack` is empty, and the history grew by the constructed calculation:
its length increases by 1 when the pre-call length was strictly below
`max_history_size`; otherwise exactly the oldest (first) entry is evicted
and the length stays at its pre-call value — which equals
`max_history_size` whenever the pre-call state satisfies the engine's bound
`len(history) ≤ max_history_size`. -/
theorem c1_history_growth {cfg : CalculatorConfig} {fp : PowModel}
    {strategy : Option OperationStrategy} {observers : List Observer}
    {now : ℕ} {s : Calculator} {a b : RawInput} {s' : Calculator} {r : ℚ}
    (h : perform_operation cfg fp strategy observers now s a b = (s', .ok r)) :
    s'.redo_stack = [] ∧
    (s.history.length < cfg.max_history_size →
      ∃ c, s'.history = s.history ++ [c] ∧
        s'.history.length = s.history.length + 1) ∧
    (¬ s.history.length < cfg.max_history_size →
      ∃ c, s'.history = (s.history ++ [c]).tail ∧
        s'.history.length = s.history.length) := by
  obtain ⟨c, rfl⟩ := perform_operation_eq_ok h
  refine ⟨rfl, ?_, ?_⟩
  · intro hlt
    have hno : ¬ (s.history ++ [c]).length > cfg.max_history_size := by
      simp only [List.length_append, List.length_cons, List.length_nil]
      omega
    have hhist : (recordCalculation cfg now s c).history = s.history ++ [c] := by
      simp only [recordCalculation]
      rw [if_neg hno]
    refine ⟨c, hhist, ?_⟩
    rw [hhist]
    simp
  · intro hge
    have hyes : (s.history ++ [c]).length > cfg.max_history_size := by
      simp only [List.length_append, List.length_cons, List.length_nil]
      omega
    have hhist : (recordCalculation cfg now s c).history = (s.history ++ [c]).tail := by
      simp only [recordCalculation]
      rw [if_pos hyes]
    refine ⟨c, hhist, ?_⟩
    rw [hhist]
    simp [List.length_tail]

/-- Witness for `c1_history_growth`: performing `Addition(2, 3)` on a fresh
calculator with bound 5 succeeds, leaves `redo_stack` empty and grows the
history from 0 to 1 entries. -/
theorem c1_history_growth_witness :
    perform_operation cfg5 fp0 (some additionStrategy) [] 0 freshCalculator
        (.num 2) (.num 3) = (⟨[addCalc], [⟨[], 0⟩], []⟩, .ok 5) ∧
    (⟨[addCalc], [⟨[], 0⟩], []⟩ : Calculator).redo_stack = [] ∧
    ∃ c, ([addCalc] : List Calculation) = freshCalculator.history ++ [c] ∧
      ([addCalc] : List Calculation).length = freshCalculator.history.length + 1 := by
  have hp : perform_operation cfg5 fp0 (some additionStrategy) [] 0 freshCalculator
      (.num 2) (.num 3) = (⟨[addCalc], [⟨[], 0⟩], []⟩, .ok 5) := by
    norm_num [perform_operation, validate_number, cfg5, fp0, additionStrategy,
      mkCalculation, calculate, notify_observers, recordCalculation,
      freshCalculator, addCalc]
  have hfresh : freshCalculator.history.length < cfg5.max_history_size := by
    norm_num [freshCalculator, cfg5]
  exact ⟨hp, (c1_history_growth hp).1, (c1_history_growth hp).2.1 hfresh⟩

/-- Counterexample to C1 as stated: from a state whose history already has 2
entries while `max_history_size = 1` (such states arise from
`load_history`, which does not truncate), a successful `perform_operation`
evicts only one entry, so the post-call length is 2, not
`max_history_size`. -/
theorem c1_counterexample :
    (perform_operation cfg1 fp0 (some additionStrategy) [] 0 bigState
        (.num 2) (.num 3)).2 = .ok 5 ∧
    bigState.history.length = 2 ∧ cfg1.max_history_size = 1 ∧
    (perform_operation cfg1 fp0 (some additionStrategy) [] 0 bigState
        (.num 2) (.num 3)).1.history.length = 2 ∧
    (perform_operation cfg1 fp0 (some additionStrategy) [] 0 bigState
        (.num 2) (.num 3)).1.history.length ≠ cfg1.max_history_size := by
  norm_num [perform_operation, validate_number, cfg1, fp0, additionStrategy,
    mkCalculation, calculate, notify_observers, recordCalculation, bigState,
    addCalc]

/-! ## C2 -/

/-- C2: after one successful `perform_operation`, `undo` returns `True` and
restores the history to exactly its pre-perform contents, and a subsequent
`redo` returns `True` and restores the post-perform contents. -/
theorem c2_undo_redo_round_trip {cfg : CalculatorConfig} {fp : PowModel}
    {strategy : Option OperationStrategy} {observers : List Observer}
    {now : ℕ} {s : Calculator} {a b : RawInput} {s' : Calculator} {r : ℚ}
    (h : perform_operation cfg fp strategy observers now s a b = (s', .ok r))
    (now2 now3 : ℕ) :
    (undo now2 s').1 = true ∧ (undo now2 s').2.history = s.history ∧
    (redo now3 (undo now2 s').2).1 = true ∧
    (redo now3 (undo now2 s').2).2.history = s'.history := by
  obtain ⟨c, rfl⟩ := perform_operation_eq_ok h
  have h1 : undo now2 (recordCalculation cfg now s c) =
      (true, ⟨s.history, s.undo_stack,
              [⟨(recordCalculation cfg now s c).history, now2⟩]⟩) := by
    simp [undo, recordCalculation, List.getLast?_concat, List.dropLast_concat]
  have h2 : redo now3 (⟨s.history, s.undo_stack,
      [⟨(recordCalculation cfg now s c).history, now2⟩]⟩ : Calculator) =
      (true, ⟨(recordCalculation cfg now s c).history,
              s.undo_stack ++ [⟨s.history, now3⟩], []⟩) := by
    simp [redo]
  rw [h1, h2]
  exact ⟨rfl, rfl, rfl, rfl⟩

/-- Witness for `c2_undo_redo_round_trip`, realizing the example of the
claim: performing `Addition(2, 3)` on a fresh calculator yields history
`[Calculation("Addition", 2, 3, 5)]`; `undo` yields the empty history; and
`redo` yields `[Calculation("Addition", 2, 3, 5)]` again. -/
theorem c2_undo_redo_round_trip_witness :
    perform_operation cfg5 fp0 (some additionStrategy) [] 0 freshCalculator
        (.num 2) (.num 3) = (⟨[addCalc], [⟨[], 0⟩], []⟩, .ok 5) ∧
    freshCalculator.history = [] ∧
    (⟨[addCalc], [⟨[], 0⟩], []⟩ : Calculator).history = [addCalc] ∧
    (undo 1 ⟨[addCalc], [⟨[], 0⟩], []⟩).1 = true ∧
    (undo 1 ⟨[addCalc], [⟨[], 0⟩], []⟩).2.history = freshCalculator.history ∧
    (redo 2 (undo 1 ⟨[addCalc], [⟨[], 0⟩], []⟩).2).1 = true ∧
    (redo 2 (undo 1 ⟨[addCalc], [⟨[], 0⟩], []⟩).2).2.history =
      (⟨[addCalc], [⟨[], 0⟩], []⟩ : Calculator).history := by
  have hp : perform_operation cfg5 fp0 (some additionStrategy) [] 0 freshCalculator
      (.num 2) (.num 3) = (⟨[addCalc], [⟨[], 0⟩], []⟩, .ok 5) := by
    norm_num [perform_operation, validate_number, cfg5, fp0, additionStrategy,
      mkCalculation, calculate, notify_observers, recordCalculation,
      freshCalculator, addCalc]
  have hc := c2_undo_redo_round_trip hp 1 2
  exact ⟨hp, rfl, rfl, hc.1, hc.2.1, hc.2.2.1, hc.2.2.2⟩

/-! ## C4 -/

/-- C4: `clear_history` leaves history, `undo_stack` and `redo_stack` all
empty, and an `undo` called immediately afterwards returns `False` and
changes nothing. -/
theorem c4_clear_empties_everything (s : Calculator) (now : ℕ) :
    (clear_history s).history = [] ∧ (clear_history s).undo_stack = [] ∧
    (clear_history s).redo_stack = [] ∧
    undo now (clear_history s) = (false, clear_history s) :=
  ⟨rfl, rfl, rfl, rfl⟩

/-! ## C3 -/

/-- The inductive invariant behind C3: the live history and every memento
stored on either stack respect the configured bound. -/
def StateInv (cfg : CalculatorConfig) (s : Calculator) : Prop :=
  s.history.length ≤ cfg.max_history_size ∧
  (∀ m ∈ s.undo_stack, m.history.length ≤ cfg.max_history_size) ∧
  (∀ m ∈ s.redo_stack, m.history.length ≤ cfg.max_history_size)

/-- A fresh calculator satisfies the invariant. -/
theorem stateInv_fresh (cfg : CalculatorConfig) : StateInv cfg freshCalculator := by
  refine ⟨?_, ?_, ?_⟩ <;> simp [freshCalculator]

/-- `recordCalculation` preserves the invariant. -/
theorem stateInv_record {cfg : CalculatorConfig} {s : Calculator}
    (hInv : StateInv cfg s) (c : Calculation) (now : ℕ) :
    StateInv cfg (recordCalculation cfg now s c) := by
  obtain ⟨h1, h2, h3⟩ := hInv
  refine ⟨?_, ?_, ?_⟩
  · by_cases hb : (s.history ++ [c]).length > cfg.max_history_size
    · simp only [recordCalculation]
      rw [if_pos hb]
      simp only [List.length_tail, List.length_append, List.length_cons,
        List.length_nil]
      omega
    · simp only [recordCalculation]
      rw [if_neg hb]
      simp only [List.length_append, List.length_cons, List.length_nil] at hb ⊢
      omega
  · intro m hm
    simp only [recordCalculation, List.mem_append, List.mem_singleton] at hm
    rcases hm with hm | rfl
    · exact h2 m hm
    · exact h1
  · intro m hm
    simp [recordCalculation] at hm

/-- Every state-changing call preserves the invariant. -/
theorem stateInv_step {cfg : CalculatorConfig} {fp : PowModel}
    {s s' : Calculator} (hInv : StateInv cfg s)
    (hstep : CalcStep cfg fp s s') : StateInv cfg s' := by
  obtain ⟨h1, h2, h3⟩ := hInv
  cases hstep with
  | perform strategy observers now a b =>
    rcases perform_operation_fst_cases cfg fp strategy observers now s a b with
      hcase | ⟨c, hcase⟩
    · rw [hcase]
      exact ⟨h1, h2, h3⟩
    · rw [hcase]
      exact stateInv_record ⟨h1, h2, h3⟩ c now
  | undoStep now =>
    cases hlast : s.undo_stack.getLast? with
    | none =>
      simp only [undo, hlast]
      exact ⟨h1, h2, h3⟩
    | some m =>
      have hm : m ∈ s.undo_stack := List.mem_of_mem_getLast? hlast
      simp only [undo, hlast]
      refine ⟨h2 m hm, ?_, ?_⟩
      · intro m' hm'
        exact h2 m' ((List.dropLast_sublist s.undo_stack).subset hm')
      · intro m' hm'
        simp only [List.mem_append, List.mem_singleton] at hm'
        rcases hm' with hm' | rfl
        · exact h3 m' hm'
        · exact h1
  | redoStep now =>
    cases hlast : s.redo_stack.getLast? with
    | none =>
      simp only [redo, hlast]
      exact ⟨h1, h2, h3⟩
    | some m =>
      have hm : m ∈ s.redo_stack := List.mem_of_mem_getLast? hlast
      simp only [redo, hlast]
      refine ⟨h3 m hm, ?_, ?_⟩
      · intro m' hm'
        simp only [List.mem_append, List.mem_singleton] at hm'
        rcases hm' with hm' | rfl
        · exact h2 m' hm'
        · exact h1
      · intro m' hm'
        exact h3 m' ((List.dropLast_sublist s.redo_stack).subset hm')
  | clear =>
    refine ⟨?_, ?_, ?_⟩ <;> simp [clear_history]

/-- C3: `len(history) ≤ max_history_size` holds in every state reachable
from a fresh calculator by any sequence of `perform_operation`, `undo`,
`redo` and `clear_history` calls, and every one of these operations
preserves it from any reachable state. -/
theorem c3_history_bounded {cfg : CalculatorConfig} {fp : PowModel}
    {s : Calculator} (h : CalcReachable cfg fp s) :
    s.history.length ≤ cfg.max_history_size ∧
    ∀ s', CalcStep cfg fp s s' → s'.history.length ≤ cfg.max_history_size := by
  have hInv : StateInv cfg s := by
    induction h with
    | fresh => exact stateInv_fresh cfg
    | step _ hst ih => exact stateInv_step ih hst
  exact ⟨hInv.1, fun s' hst => (stateInv_step hInv hst).1⟩

/-- Witness for `c3_history_bounded`: the bound holds at the reachable state
obtained by performing `Addition(2, 3)` on a fresh calculator. -/
theorem c3_history_bounded_witness :
    (⟨[addCalc], [⟨[], 0⟩], []⟩ : Calculator).history.length ≤
      cfg5.max_history_size := by
  have hp : perform_operation cfg5 fp0 (some additionStrategy) [] 0 freshCalculator
      (.num 2) (.num 3) = (⟨[addCalc], [⟨[], 0⟩], []⟩, .ok 5) := by
    norm_num [perform_operation, validate_number, cfg5, fp0, additionStrategy,
      mkCalculation, calculate, notify_observers, recordCalculation,
      freshCalculator, addCalc]
  have hreach : CalcReachable cfg5 fp0 (⟨[addCalc], [⟨[], 0⟩], []⟩ : Calculator) := by
    have h := CalcReachable.step CalcReachable.fresh
      (@CalcStep.perform cfg5 fp0 (some additionStrategy) [] 0
        (.num 2) (.num 3) freshCalculator)
    rw [hp] at h
    exact h
  exact (c3_history_bounded hreach).1

/-! ## C5 -/

/-- C5: for every validly constructed `Calculation`,
`from_dict(to_dict(c))` succeeds and returns a calculation equal to `c` in
all of operation, operand1, operand2 and result (indeed in all fields,
including the restored timestamp). -/
theorem c5_round_trip {fp : PowModel} {op : String} {x y : ℚ} {ts now : ℕ}
    {c : Calculation} (h : mkCalculation fp op x y ts = .ok c) :
    Calculation.from_dict fp now c.to_dict = .ok c := by
  unfold mkCalculation at h
  cases hc : calculate fp op x y with
  | error e =>
    rw [hc] at h
    exact absurd h (by simp)
  | ok r =>
    rw [hc] at h
    injection h with h1
    subst h1
    simp [Calculation.from_dict, Calculation.to_dict, mkCalculation, hc]

/-- Witness for `c5_round_trip`: the round trip at
`Calculation("Addition", 2, 3)` built at time 7 and reloaded at time 9. -/
theorem c5_round_trip_witness :
    mkCalculation fp0 "Addition" 2 3 7 = .ok ⟨"Addition", 2, 3, 5, 7⟩ ∧
    Calculation.from_dict fp0 9 (Calculation.to_dict ⟨"Addition", 2, 3, 5, 7⟩) =
      .ok ⟨"Addition", 2, 3, 5, 7⟩ := by
  have hmk : mkCalculation fp0 "Addition" 2 3 7 = .ok ⟨"Addition", 2, 3, 5, 7⟩ := by
    norm_num [mkCalculation, calculate]
  exact ⟨hmk, c5_round_trip hmk⟩

/-! ## C6 -/

/-- `ratTrunc` on a nonnegative rational is its floor. -/
theorem ratTrunc_of_nonneg {q : ℚ} (h : 0 ≤ q) : ratTrunc q = ⌊q⌋ := by
  unfold ratTrunc
  rw [Rat.floor_def]
  exact Int.tdiv_eq_ediv (Rat.num_nonneg.mpr h) (Int.ofNat_nonneg q.den)

/-- `ratTrunc` agrees with floor on nonnegative rationals and with ceiling
on negative ones: it truncates toward zero. -/
theorem ratTrunc_eq_floor_or_ceil (q : ℚ) :
    ratTrunc q = if 0 ≤ q then ⌊q⌋ else ⌈q⌉ := by
  by_cases h : 0 ≤ q
  · rw [if_pos h]
    exact ratTrunc_of_nonneg h
  · rw [if_neg h]
    have hneg : 0 ≤ -q := by
      rw [not_le] at h
      linarith
    have h1 : ratTrunc q = -ratTrunc (-q) := by
      unfold ratTrunc
      rw [Rat.neg_num, Rat.neg_den, Int.neg_tdiv, neg_neg]
    have h2 : (⌈q⌉ : ℤ) = -⌊-q⌋ := by
      rw [← neg_neg q, Int.ceil_neg, neg_neg]
    rw [h1, ratTrunc_of_nonneg hneg, h2]

/-- C6: for every nonzero `y`, `IntegerDivision` returns the quotient `x / y`
truncated toward zero — the floor of the quotient when it is nonnegative and
its ceiling (not its floor) when it is negative. -/
theorem c6_integer_division_truncates (fp : PowModel) (x y : ℚ) (h : y ≠ 0) :
    calculate fp "IntegerDivision" x y = .ok ((ratTrunc (x / y) : ℤ) : ℚ) ∧
    ratTrunc (x / y) = if 0 ≤ x / y then ⌊x / y⌋ else ⌈x / y⌉ := by
  constructor
  · simp [calculate, h]
  · exact ratTrunc_eq_floor_or_ceil _

/-- Witness for `c6_integer_division_truncates`, realizing the example of
the claim: `IntegerDivision(-10, 3) = -3`, truncation toward zero, while the
floor of `-10/3` is `-4`. -/
theorem c6_integer_division_truncates_witness :
    (3 : ℚ) ≠ 0 ∧
    calculate fp0 "IntegerDivision" (-10) 3 = .ok ((-3 : ℤ) : ℚ) ∧
    ratTrunc ((-10 : ℚ) / 3) = -3 ∧ ⌊(-10 : ℚ) / 3⌋ = -4 := by
  have h3 : (3 : ℚ) ≠ 0 := by norm_num
  have hceil : (⌈(-10 : ℚ) / 3⌉ : ℤ) = -3 := by
    rw [Int.ceil_eq_iff] <;> norm_num
  have htr : ratTrunc ((-10 : ℚ) / 3) = -3 := by
    rw [(c6_integer_division_truncates fp0 (-10) 3 h3).2, if_neg (by norm_num), hceil]
  refine ⟨h3, ?_, htr, ?_⟩
  · rw [(c6_integer_division_truncates fp0 (-10) 3 h3).1, htr]
  · rw [Int.floor_eq_iff] <;> norm_num

/-! ## C7 -/

/-- C7 (amended): `Power` with `y < 0` fails with the negative-exponent
message; `Root` with `y = 0` fails with the zero-root message; and `Root`
with `x < 0` and `y ≠ 0` fails with the negative-root message (when both
`x < 0` and `y = 0`, the zero-root check of `_raise_invalid_root` comes
first). -/
theorem c7_power_root_guards (fp : PowModel) (x y : ℚ) :
    (y < 0 → calculate fp "Power" x y = .error (.operationError negPowerMsg)) ∧
    (y = 0 → calculate fp "Root" x y = .error (.operationError zeroRootMsg)) ∧
    (x < 0 → y ≠ 0 → calculate fp "Root" x y = .error (.operationError negRootMsg)) := by
  refine ⟨?_, ?_, ?_⟩
  · intro hy
    simp [calculate, not_le.mpr hy]
  · intro hy
    subst hy
    simp [calculate]
  · intro hx hy
    simp [calculate, hy, hx, not_le.mpr hx]

/-- Witness for `c7_power_root_guards`: `Power(2, -1)` fails with the
negative-exponent message, `Root(16, 0)` with the zero-root message, and
`Root(-16, 2)` with the negative-root message. -/
theorem c7_power_root_guards_witness :
    ((-1 : ℚ) < 0 ∧
      calculate fp0 "Power" 2 (-1) = .error (.operationError negPowerMsg)) ∧
    ((0 : ℚ) = 0 ∧
      calculate fp0 "Root" 16 0 = .error (.operationError zeroRootMsg)) ∧
    ((-16 : ℚ) < 0 ∧ (2 : ℚ) ≠ 0 ∧
      calculate fp0 "Root" (-16) 2 = .error (.operationError negRootMsg)) := by
  refine ⟨⟨by norm_num, (c7_power_root_guards fp0 2 (-1)).1 (by norm_num)⟩,
    ⟨rfl, (c7_power_root_guards fp0 16 0).2.1 rfl⟩,
    ⟨by norm_num, by norm_num,
      (c7_power_root_guards fp0 (-16) 2).2.2 (by norm_num) (by norm_num)⟩⟩

/-- Counterexample to C7 as stated: at `x = -1 < 0` and `y = 0`, the `Root`
construction fails with the zero-root message, not the negative-root message,
because `_raise_invalid_root` checks `y == 0` before `x < 0`. -/
theorem c7_counterexample :
    calculate fp0 "Root" (-1) 0 = .error (.operationError zeroRootMsg) ∧
    zeroRootMsg ≠ negRootMsg := by
  constructor
  · simp [calculate]
  · decide

/-! ## C8 -/

/-- C8 (code bug): with second operand 0, `Division`, `Modulus`,
`IntegerDivision` and `Percentage` all fail with the generic
division-by-zero message.  In particular `Percentage` does not fail with the
distinct message of `_raise_percentage_div_zero` — that helper is never
called — contradicting the spec sentence and the repository's own test
`test_percentage_by_zero`, which expects the distinct message. -/
theorem c8_percentage_message_bug (fp : PowModel) (x : ℚ) :
    calculate fp "Division" x 0 = .error (.operationError divZeroMsg) ∧
    calculate fp "Modulus" x 0 = .error (.operationError divZeroMsg) ∧
    calculate fp "IntegerDivision" x 0 = .error (.operationError divZeroMsg) ∧
    calculate fp "Percentage" x 0 = .error (.operationError divZeroMsg) ∧
    divZeroMsg ≠ percentageDivZeroMsg := by
  refine ⟨by simp [calculate], by simp [calculate], by simp [calculate],
    by simp [calculate], by decide⟩

/-! ## C9 -/

/-- Reading below the extended part of a store is unchanged by allocation. -/
theorem listAt_append_left {store l2 : List (List Calculation)} {r : ℕ}
    (h : r < store.length) : listAt (store ++ l2) r = listAt store r := by
  unfold listAt
  rw [List.getD_eq_getElem?_getD, List.getD_eq_getElem?_getD,
    List.getElem?_append, if_pos h]

/-- Reading a reference other than the mutated one is unchanged. -/
theorem listAt_set_ne {store : List (List Calculation)} {i r : ℕ}
    {l : List Calculation} (h : i ≠ r) :
    listAt (store.set i l) r = listAt store r := by
  unfold listAt
  rw [List.getD_eq_getElem?_getD, List.getD_eq_getElem?_getD,
    List.getElem?_set_ne h]

/-- A reference that is valid and distinct from the live-history reference
stays valid, stays distinct, and keeps its contents across any single
state-changing call. -/
theorem heapStep_frozen {s s' : HeapCalculator} (hstep : HeapStep s s')
    {r : ℕ} (hr : r < s.store.length) (hne : r ≠ s.history_ref) :
    r < s'.store.length ∧ r ≠ s'.history_ref ∧
    listAt s'.store r = listAt s.store r := by
  cases hstep with
  | perform max_history_size c =>
    refine ⟨?_, hne, ?_⟩
    · simp only [heapPerform, List.length_set, List.length_append,
        List.length_cons, List.length_nil]
      omega
    · simp only [heapPerform]
      rw [listAt_set_ne (Ne.symm hne), listAt_append_left hr]
  | undoStep =>
    cases hlast : s.undo_refs.getLast? with
    | none =>
      have hs' : heapUndo s = s := by
        simp only [heapUndo, hlast]
      rw [hs']
      exact ⟨hr, hne, rfl⟩
    | some m =>
      have hs' : heapUndo s =
          ⟨s.store ++ [listAt s.store s.history_ref, listAt s.store m],
           s.store.length + 1, s.undo_refs.dropLast,
           s.redo_refs ++ [s.store.length]⟩ := by
        simp only [heapUndo, hlast]
      rw [hs']
      refine ⟨?_, ?_, listAt_append_left hr⟩
      · simp only [List.length_append, List.length_cons, List.length_nil]
        omega
      · dsimp only
        omega
  | redoStep =>
    cases hlast : s.redo_refs.getLast? with
    | none =>
      have hs' : heapRedo s = s := by
        simp only [heapRedo, hlast]
      rw [hs']
      exact ⟨hr, hne, rfl⟩
    | some m =>
      have hs' : heapRedo s =
          ⟨s.store ++ [listAt s.store s.history_ref, listAt s.store m],
           s.store.length + 1, s.undo_refs ++ [s.store.length],
           s.redo_refs.dropLast⟩ := by
        simp only [heapRedo, hlast]
      rw [hs']
      refine ⟨?_, ?_, listAt_append_left hr⟩
      · simp only [List.length_append, List.length_cons, List.length_nil]
        omega
      · dsimp only
        omega
  | clear =>
    exact ⟨by simp only [heapClear, List.length_set]; omega, hne,
      listAt_set_ne (Ne.symm hne)⟩

/-- A fresh calculator satisfies the reference-level invariant. -/
theorem heapInv_fresh : HeapInv freshHeapCalculator := by
  constructor
  · simp [freshHeapCalculator]
  · intro r hrm
    simp [freshHeapCalculator] at hrm

/-- Every state-changing call preserves the reference-level invariant: the
fresh allocations of `heapPerform`, `heapUndo` and `heapRedo` can never
alias the live history. -/
theorem heapInv_step {s s' : HeapCalculator} (hInv : HeapInv s)
    (hstep : HeapStep s s') : HeapInv s' := by
  obtain ⟨h1, h2⟩ := hInv
  cases hstep with
  | perform max_history_size c =>
    constructor
    · simp only [heapPerform, List.length_set, List.length_append,
        List.length_cons, List.length_nil]
      omega
    · intro r hrm
      simp only [heapPerform, List.append_nil, List.mem_append,
        List.mem_singleton, List.length_set, List.length_append,
        List.length_cons, List.length_nil] at hrm ⊢
      rcases hrm with hrm | rfl
      · obtain ⟨ha, hb⟩ := h2 r (List.mem_append_left _ hrm)
        exact ⟨by omega, hb⟩
      · exact ⟨by omega, by omega⟩
  | undoStep =>
    cases hlast : s.undo_refs.getLast? with
    | none =>
      simp only [heapUndo, hlast]
      exact ⟨h1, h2⟩
    | some m =>
      simp only [heapUndo, hlast]
      constructor
      · simp only [List.length_append, List.length_cons, List.length_nil]
        omega
      · intro r hrm
        simp only [List.mem_append, List.mem_singleton,
          List.length_append, List.length_cons, List.length_nil] at hrm ⊢
        rcases hrm with hrm | hrm | rfl
        · obtain ⟨ha, hb⟩ := h2 r (List.mem_append_left _
            ((List.dropLast_sublist s.undo_refs).subset hrm))
          exact ⟨by omega, by omega⟩
        · obtain ⟨ha, hb⟩ := h2 r (List.mem_append_right _ hrm)
          exact ⟨by omega, by omega⟩
        · exact ⟨by omega, by omega⟩
  | redoStep =>
    cases hlast : s.redo_refs.getLast? with
    | none =>
      simp only [heapRedo, hlast]
      exact ⟨h1, h2⟩
    | some m =>
      simp only [heapRedo, hlast]
      constructor
      · simp only [List.length_append, List.length_cons, List.length_nil]
        omega
      · intro r hrm
        simp only [List.mem_append, List.mem_singleton,
          List.length_append, List.length_cons, List.length_nil] at hrm ⊢
        rcases hrm with (hrm | rfl) | hrm
        · obtain ⟨ha, hb⟩ := h2 r (List.mem_append_left _ hrm)
          exact ⟨by omega, by omega⟩
        · exact ⟨by omega, by omega⟩
        · obtain ⟨ha, hb⟩ := h2 r (List.mem_append_right _
            ((List.dropLast_sublist s.redo_refs).subset hrm))
          exact ⟨by omega, by omega⟩
  | clear =>
    constructor
    · simp only [heapClear, List.length_set]
      omega
    · intro r hrm
      simp only [heapClear, List.append_nil] at hrm
      simp at hrm

/-- The states reachable from a fresh calculator at the reference level. -/
inductive HeapReachable : HeapCalculator → Prop where
  | fresh : HeapReachable freshHeapCalculator
  | step {s s' : HeapCalculator} : HeapReachable s → HeapStep s s' →
      HeapReachable s'

/-- Every reachable reference-level state satisfies the invariant. -/
theorem heapInv_reachable {s : HeapCalculator} (h : HeapReachable s) :
    HeapInv s := by
  induction h with
  | fresh => exact heapInv_fresh
  | step _ hst ih => exact heapInv_step ih hst

/-- A frozen reference keeps its contents across any sequence of calls. -/
theorem heapSteps_frozen {s s' : HeapCalculator}
    (h : Relation.ReflTransGen HeapStep s s') {r : ℕ}
    (hr : r < s.store.length) (hne : r ≠ s.history_ref) :
    r < s'.store.length ∧ r ≠ s'.history_ref ∧
    listAt s'.store r = listAt s.store r := by
  induction h with
  | refl => exact ⟨hr, hne, rfl⟩
  | tail _ hstep ih =>
    obtain ⟨h1, h2, h3⟩ := ih
    obtain ⟨g1, g2, g3⟩ := heapStep_frozen hstep h1 h2
    exact ⟨g1, g2, by rw [g3, h3]⟩

/-- C9: in any reachable reference-level state, a memento on either stack
holds a list object distinct from the live history, and any later sequence
of `perform_operation`, `undo`, `redo` and `clear_history` mutations leaves
the sequence of calculations stored in it unchanged. -/
theorem c9_memento_frame {s s' : HeapCalculator} (hs : HeapReachable s)
    (hsteps : Relation.ReflTransGen HeapStep s s') :
    ∀ r ∈ s.undo_refs ++ s.redo_refs, listAt s'.store r = listAt s.store r := by
  intro r hrm
  obtain ⟨hlt, hne⟩ := (heapInv_reachable hs).2 r hrm
  exact (heapSteps_frozen hsteps hlt hne).2.2

/-- The reference-level state after one successful `Addition` from fresh. -/
def heapS1 : HeapCalculator := heapPerform 5 addCalc freshHeapCalculator

/-- The reference-level state after two successful performs from fresh: its
second memento (reference 2) stores the snapshot `[addCalc]`. -/
def heapS2 : HeapCalculator := heapPerform 5 addCalc heapS1

/-- Witness for `c9_memento_frame`: in the reachable state `heapS2` the
memento at reference 2 stores `[addCalc]`, and the in-place list mutation
done by `clear_history` leaves that stored snapshot unchanged. -/
theorem c9_memento_frame_witness :
    ((2 : ℕ) ∈ heapS2.undo_refs ++ heapS2.redo_refs) ∧
    listAt heapS2.store 2 = [addCalc] ∧
    listAt (heapClear heapS2).store 2 = listAt heapS2.store 2 := by
  have hreach : HeapReachable heapS2 :=
    .step (.step .fresh (.perform 5 addCalc freshHeapCalculator))
      (.perform 5 addCalc heapS1)
  have hmem : (2 : ℕ) ∈ heapS2.undo_refs ++ heapS2.redo_refs := by decide
  exact ⟨hmem, rfl,
    c9_memento_frame hreach (Relation.ReflTransGen.single (.clear heapS2)) 2 hmem⟩

/-! ## C10 -/

/-- C10: when `perform_operation` raises because input validation fails on
either operand, because the strategy's execution fails, or because the
`Calculation` construction fails, then the call raises before any mutation:
history, `undo_stack` and `redo_stack` are exactly as they were. -/
theorem c10_no_partial_mutation {cfg : CalculatorConfig} {fp : PowModel}
    (strat : OperationStrategy) (observers : List Observer) (now : ℕ)
    (s : Calculator) (a b : RawInput)
    (hfail :
      (∃ e, validate_number cfg a = .error e) ∨
      (∃ va e, validate_number cfg a = .ok va ∧
        validate_number cfg b = .error e) ∨
      (∃ va vb e, validate_number cfg a = .ok va ∧
        validate_number cfg b = .ok vb ∧ strat.execute va vb = .error e) ∨
      (∃ va vb rv e, validate_number cfg a = .ok va ∧
        validate_number cfg b = .ok vb ∧ strat.execute va vb = .ok rv ∧
        mkCalculation fp strat.name va vb now = .error e)) :
    (perform_operation cfg fp (some strat) observers now s a b).1 = s ∧
    (perform_operation cfg fp (some strat) observers now s a b).1.history =
      s.history ∧
    (perform_operation cfg fp (some strat) observers now s a b).1.undo_stack =
      s.undo_stack ∧
    (perform_operation cfg fp (some strat) observers now s a b).1.redo_stack =
      s.redo_stack ∧
    ∃ e, (perform_operation cfg fp (some strat) observers now s a b).2 =
      .error e := by
  rcases hfail with ⟨e, he⟩ | ⟨va, e, hva, he⟩ | ⟨va, vb, e, hva, hvb, he⟩ |
    ⟨va, vb, rv, e, hva, hvb, hrv, he⟩
  · have hmain : perform_operation cfg fp (some strat) observers now s a b =
        (s, .error e) := by
      unfold perform_operation
      simp only [he]
    rw [hmain]
    exact ⟨rfl, rfl, rfl, rfl, e, rfl⟩
  · have hmain : perform_operation cfg fp (some strat) observers now s a b =
        (s, .error e) := by
      unfold perform_operation
      simp only [hva, he]
    rw [hmain]
    exact ⟨rfl, rfl, rfl, rfl, e, rfl⟩
  · have hmain : perform_operation cfg fp (some strat) observers now s a b =
        (s, .error (wrapPerformError e)) := by
      unfold perform_operation
      simp only [hva, hvb, he]
    rw [hmain]
    exact ⟨rfl, rfl, rfl, rfl, wrapPerformError e, rfl⟩
  · have hmain : perform_operation cfg fp (some strat) observers now s a b =
        (s, .error (wrapPerformError e)) := by
      unfold perform_operation
      simp only [hva, hvb, hrv, he]
    rw [hmain]
    exact ⟨rfl, rfl, rfl, rfl, wrapPerformError e, rfl⟩

/-- Witness for `c10_no_partial_mutation`: an unparsable first operand
leaves a two-entry state with a non-empty history completely unchanged, and
the call raises the validation error. -/
theorem c10_no_partial_mutation_witness :
    (perform_operation cfg5 fp0 (some additionStrategy) [] 0 bigState
        (.invalid "abc") (.num 3)).1 = bigState ∧
    (perform_operation cfg5 fp0 (some additionStrategy) [] 0 bigState
        (.invalid "abc") (.num 3)).2 =
      .error (.validationError ("Invalid number format: " ++ "abc")) := by
  have h := @c10_no_partial_mutation cfg5 fp0 additionStrategy
    [] 0 bigState (.invalid "abc") (.num 3)
    (Or.inl ⟨.validationError ("Invalid number format: " ++ "abc"), rfl⟩)
  exact ⟨h.1, rfl⟩
